import Mathlib

/-!
Shallow embedding of the Stackr Tetris engine (src/tetris_core and src/bot)
and verification of its specification claims.

Conventions used throughout:
* Rust `usize` values are modelled as `Nat`; the wrapping cast `i32 as usize`
  is modelled by `usizeOfInt` (reduction modulo 2^64).
* Arithmetic whose overflow would abort a Rust debug build (`a - b` on
  `usize` with `b > a`, `a + b` beyond `usize::MAX`) is modelled by
  `Option`-valued checked operations; a `none` result marks the spot where
  the Rust program underflows (panicking under debug assertions, wrapping
  in release builds).
* `std::time::Duration` values are modelled as `Nat` milliseconds; every
  duration constructed by the program is a whole number of milliseconds.
* The field `last_successful_movement : Instant` of `Game` is written but
  never read anywhere in the repository, so it is omitted from the state.
-/

set_option maxRecDepth 100000

namespace Stackr

/-- Board width W = 10 (`tetris_core/mod.rs`). -/
def BOARD_WIDTH : Nat := 10

/-- Board height H = 22 (`tetris_core/mod.rs`). -/
def BOARD_HEIGHT : Nat := 22

/-- The seven piece shapes (`piece.rs`, `PieceType`). -/
inductive PieceType where
  | I | O | T | S | Z | J | L
deriving DecidableEq, Repr

/-- Piece orientation (`piece.rs`, `Rotation`). -/
inductive Rotation where
  | North | East | South | West
deriving DecidableEq, Repr

/-- Clockwise orientation step (`Rotation::rotate_cw`). -/
def Rotation.rotate_cw : Rotation → Rotation
  | .North => .East
  | .East => .South
  | .South => .West
  | .West => .North

/-- Counter-clockwise orientation step (`Rotation::rotate_ccw`). -/
def Rotation.rotate_ccw : Rotation → Rotation
  | .North => .West
  | .East => .North
  | .South => .East
  | .West => .South

/-- A board cell (`board.rs`, `Cell`). -/
inductive Cell where
  | Empty
  | Filled (t : PieceType)
deriving DecidableEq, Repr

/-- An active piece (`piece.rs`, `Piece`): shape, signed pivot position,
orientation. -/
structure Piece where
  piece_type : PieceType
  row : Int
  col : Int
  rotation : Rotation
deriving DecidableEq, Repr

/-- `Piece::new`: a fresh piece spawns in the `North` orientation. -/
def Piece.new (t : PieceType) (row col : Int) : Piece :=
  ⟨t, row, col, .North⟩

/-- The static (shape, orientation) offset table (`Piece::get_block_offsets`). -/
def Piece.get_block_offsets (p : Piece) : List (Int × Int) :=
  match p.piece_type, p.rotation with
  | .I, .North => [(0, -1), (0, 0), (0, 1), (0, 2)]
  | .I, .East => [(-1, 1), (0, 1), (1, 1), (2, 1)]
  | .I, .South => [(1, -1), (1, 0), (1, 1), (1, 2)]
  | .I, .West => [(-1, 0), (0, 0), (1, 0), (2, 0)]
  | .O, _ => [(0, 0), (0, 1), (1, 0), (1, 1)]
  | .T, .North => [(0, 0), (0, -1), (0, 1), (1, 0)]
  | .T, .East => [(0, 0), (-1, 0), (1, 0), (0, 1)]
  | .T, .South => [(0, 0), (0, -1), (0, 1), (-1, 0)]
  | .T, .West => [(0, 0), (-1, 0), (1, 0), (0, -1)]
  | .S, .North => [(0, 0), (0, -1), (1, 0), (1, 1)]
  | .S, .East => [(0, 0), (1, 0), (0, 1), (-1, 1)]
  | .S, .South => [(0, 0), (0, 1), (-1, 0), (-1, -1)]
  | .S, .West => [(0, 0), (-1, 0), (0, -1), (1, -1)]
  | .Z, .North => [(0, 0), (0, 1), (1, 0), (1, -1)]
  | .Z, .East => [(0, 0), (-1, 0), (0, -1), (1, -1)]
  | .Z, .South => [(0, 0), (0, -1), (-1, 0), (-1, 1)]
  | .Z, .West => [(0, 0), (1, 0), (0, 1), (-1, 1)]
  | .J, .North => [(0, 0), (0, -1), (0, 1), (-1, 1)]
  | .J, .East => [(0, 0), (-1, 0), (1, 0), (-1, -1)]
  | .J, .South => [(0, 0), (0, 1), (0, -1), (1, -1)]
  | .J, .West => [(0, 0), (1, 0), (-1, 0), (1, 1)]
  | .L, .North => [(0, 0), (0, -1), (0, 1), (1, 1)]
  | .L, .East => [(0, 0), (-1, 0), (1, 0), (1, -1)]
  | .L, .South => [(0, 0), (0, 1), (0, -1), (-1, -1)]
  | .L, .West => [(0, 0), (1, 0), (-1, 0), (-1, 1)]

/-- `Piece::get_blocks`: pivot plus offsets, KEEPING ONLY cells whose row and
column are both non-negative (the `filter_map` drops the others before the
`usize` conversion). -/
def Piece.get_blocks (p : Piece) : List (Nat × Nat) :=
  p.get_block_offsets.filterMap fun (ro, co) =>
    let row := p.row + ro
    let col := p.col + co
    if row ≥ 0 ∧ col ≥ 0 then some (row.toNat, col.toNat) else none

/-- All four occupied cells of a piece as signed coordinates (the
`(row, col)` pairs computed inside `Piece::get_blocks` before its
non-negativity filter). -/
def Piece.signed_cells (p : Piece) : List (Int × Int) :=
  p.get_block_offsets.map fun (ro, co) => (p.row + ro, p.col + co)

/-- `Piece::move_left` (pure transform, `with_left_move`). -/
def Piece.with_left_move (p : Piece) : Piece := { p with col := p.col - 1 }

/-- `Piece::move_right` (pure transform, `with_right_move`). -/
def Piece.with_right_move (p : Piece) : Piece := { p with col := p.col + 1 }

/-- `Piece::move_down` (pure transform, `with_down_move`). -/
def Piece.with_down_move (p : Piece) : Piece := { p with row := p.row + 1 }

/-- `Piece::with_clockwise_rotation`. -/
def Piece.with_clockwise_rotation (p : Piece) : Piece :=
  { p with rotation := p.rotation.rotate_cw }

/-- `Piece::with_counterclockwise_rotation`. -/
def Piece.with_counterclockwise_rotation (p : Piece) : Piece :=
  { p with rotation := p.rotation.rotate_ccw }

/-- The board (`board.rs`): a 22 × 10 grid of cells, row 0 at the top.
The Rust type is a fixed-size array `[[Cell; 10]; 22]`; here the grid is a
list of rows, and every constructor below preserves the 22 × 10 shape. -/
structure Board where
  grid : List (List Cell)
deriving DecidableEq, Repr

/-- One empty row of width 10. -/
def emptyRow : List Cell := List.replicate BOARD_WIDTH Cell.Empty

/-- `Board::new`: the all-empty board. -/
def Board.new : Board := ⟨List.replicate BOARD_HEIGHT emptyRow⟩

/-- `Board::get_cell`: bounds-checked read, `none` when out of range. -/
def Board.get_cell (b : Board) (row col : Nat) : Option Cell :=
  if row < BOARD_HEIGHT ∧ col < BOARD_WIDTH then
    some (((b.grid.getD row []).getD col Cell.Empty))
  else
    none

/-- `Board::set_cell`: bounds-checked write, reporting success. -/
def Board.set_cell (b : Board) (row col : Nat) (cell : Cell) : Bool × Board :=
  if row < BOARD_HEIGHT ∧ col < BOARD_WIDTH then
    (true, ⟨b.grid.set row ((b.grid.getD row []).set col cell)⟩)
  else
    (false, b)

/-- Does an optional cell hold a `Filled` value (the pattern
`Some(Cell::Filled(_))`)? -/
def cellFilled : Option Cell → Bool
  | some (Cell.Filled _) => true
  | _ => false

/-- `Board::can_place`: every block of the piece (as delivered by
`get_blocks`) must be in range and on an empty cell. -/
def Board.can_place (b : Board) (p : Piece) : Bool :=
  p.get_blocks.all fun (row, col) =>
    if row ≥ BOARD_HEIGHT ∨ col ≥ BOARD_WIDTH then false
    else if cellFilled (b.get_cell row col) then false
    else true

/-- `Board::place_piece`: commit the piece cells if `can_place` holds. -/
def Board.place_piece (b : Board) (p : Piece) : Bool × Board :=
  if ¬ b.can_place p then (false, b)
  else
    (true, p.get_blocks.foldl (fun acc (rc : Nat × Nat) =>
      Board.mk (acc.grid.set rc.1 ((acc.grid.getD rc.1 []).set rc.2
        (Cell.Filled p.piece_type)))) b)

/-- `Board::is_line_complete`: a row in range with no `Empty` cell. -/
def Board.is_line_complete (b : Board) (row : Nat) : Bool :=
  if row ≥ BOARD_HEIGHT then false
  else (List.range BOARD_WIDTH).all fun col =>
    (b.grid.getD row []).getD col Cell.Empty ≠ Cell.Empty

/-- `Board::remove_line`: shift every row above `row` down one and put an
empty row at the top (the functional image of the in-place loop
`for r in (1..=row).rev() { grid[r] = grid[r-1] }; grid[0] = empty`). -/
def Board.remove_line (b : Board) (row : Nat) : Board :=
  if row ≥ BOARD_HEIGHT then b
  else ⟨emptyRow :: (b.grid.take row ++ b.grid.drop (row + 1))⟩

/-- `Board::clear_lines`: scan rows bottom-to-top over the original indices,
removing each row that is complete at the moment it is visited.  Returns the
number of rows removed together with the resulting board.  (This faithfully
reproduces the source loop, including its behaviour on rows that become
complete at an already-visited index after a shift.) -/
def Board.clear_lines (b : Board) : Nat × Board :=
  (List.range BOARD_HEIGHT).reverse.foldl
    (fun (acc : Nat × Board) row =>
      if acc.2.is_line_complete row then (acc.1 + 1, acc.2.remove_line row)
      else acc)
    (0, b)

/-- `Board::is_top_blocked`: any filled cell in row 0. -/
def Board.is_top_blocked (b : Board) : Bool :=
  (List.range BOARD_WIDTH).any fun col =>
    cellFilled (some ((b.grid.getD 0 []).getD col Cell.Empty))

/-- `Board::clear`: reset every cell to `Empty`. -/
def Board.clear (_ : Board) : Board := Board.new

/-- `Board::is_perfect_clear`: no filled cell anywhere. -/
def Board.is_perfect_clear (b : Board) : Bool :=
  (List.range BOARD_HEIGHT).all fun row =>
    (List.range BOARD_WIDTH).all fun col =>
      ¬ cellFilled (some ((b.grid.getD row []).getD col Cell.Empty))

/-! ## Rotation resolver (`rotation.rs`) -/

/-- `RotationSystem::get_kick_offsets`: the SRS kick tables. -/
def get_kick_offsets (t : PieceType) (fromR toR : Rotation) : List (Int × Int) :=
  if t = PieceType.I then
    match fromR, toR with
    | .North, .East => [(0, 0), (-1, 0), (2, 0), (-1, -2), (2, 1)]
    | .East, .North => [(0, 0), (1, 0), (-2, 0), (1, 2), (-2, -1)]
    | .East, .South => [(0, 0), (2, 0), (-1, 0), (2, -1), (-1, 2)]
    | .South, .East => [(0, 0), (-2, 0), (1, 0), (-2, 1), (1, -2)]
    | .South, .West => [(0, 0), (1, 0), (-2, 0), (1, 2), (-2, -1)]
    | .West, .South => [(0, 0), (-1, 0), (2, 0), (-1, -2), (2, 1)]
    | .West, .North => [(0, 0), (-2, 0), (1, 0), (-2, 1), (1, -2)]
    | .North, .West => [(0, 0), (2, 0), (-1, 0), (2, -1), (-1, 2)]
    | _, _ => [(0, 0)]
  else if t = PieceType.O then
    [(0, 0)]
  else
    match fromR, toR with
    | .North, .East => [(0, 0), (-1, 0), (-1, 1), (0, -2), (-1, -2)]
    | .East, .North => [(0, 0), (1, 0), (1, -1), (0, 2), (1, 2)]
    | .East, .South => [(0, 0), (1, 0), (1, -1), (0, 2), (1, 2)]
    | .South, .East => [(0, 0), (-1, 0), (-1, 1), (0, -2), (-1, -2)]
    | .South, .West => [(0, 0), (1, 0), (1, 1), (0, -2), (1, -2)]
    | .West, .South => [(0, 0), (-1, 0), (-1, -1), (0, 2), (-1, 2)]
    | .West, .North => [(0, 0), (-1, 0), (-1, -1), (0, 2), (-1, 2)]
    | .North, .West => [(0, 0), (1, 0), (1, 1), (0, -2), (1, -2)]
    | _, _ => [(0, 0)]

/-- Try kick offsets in order against the re-oriented piece, returning the
first placement that fits (the `for` loop shared by both rotation entry
points of `RotationSystem`). -/
def tryKicks (b : Board) (rotated : Piece) : List (Int × Int) → Option Piece
  | [] => none
  | (ro, co) :: rest =>
    let kicked := { rotated with row := rotated.row + ro, col := rotated.col + co }
    if b.can_place kicked then some kicked else tryKicks b rotated rest

/-- `RotationSystem::rotate_clockwise`. -/
def RotationSystem.rotate_clockwise (p : Piece) (b : Board) : Option Piece :=
  let rotated := p.with_clockwise_rotation
  tryKicks b rotated (get_kick_offsets p.piece_type p.rotation rotated.rotation)

/-- `RotationSystem::rotate_counterclockwise`. -/
def RotationSystem.rotate_counterclockwise (p : Piece) (b : Board) : Option Piece :=
  let rotated := p.with_counterclockwise_rotation
  tryKicks b rotated (get_kick_offsets p.piece_type p.rotation rotated.rotation)

/-! ## Piece source (`randomizer.rs`)

`BagRandomizer` draws its shuffles from `rand::thread_rng`.  The shuffle
outcomes are modelled as an explicit stream `bags : Nat → List PieceType`
carried in the state: the `k`-th call to `refill_bag` installs `bags k` as
the new bag (the source installs the fixed seven-element vector and
shuffles it in place, so each genuine outcome is a permutation of the seven
shapes; theorems assume exactly that about the stream).  `Vec::pop` takes
the LAST element of the bag; `VecDeque` push_back/pop_front is a FIFO
queue whose front is the list head. -/

/-- The vector installed by `refill_bag` before shuffling. -/
def fullBag : List PieceType :=
  [.I, .O, .T, .S, .Z, .J, .L]

/-- The 7-bag piece source state. -/
structure BagRandomizer where
  bag : List PieceType
  preview_queue : List PieceType
  bags : Nat → List PieceType
  refill_count : Nat

/-- `Vec::pop().unwrap()` on the bag: remove and return the last element.
Rust panics on an empty vector; the call sites below only pop after
guaranteeing a non-empty bag, so the `.I` default is unreachable there. -/
def popBack (l : List PieceType) : PieceType × List PieceType :=
  (l.getLastD .I, l.dropLast)

/-- `BagRandomizer::refill_bag`: install the next shuffle outcome. -/
def BagRandomizer.refill_bag (r : BagRandomizer) : BagRandomizer :=
  { r with bag := r.bags r.refill_count, refill_count := r.refill_count + 1 }

/-- One iteration of the preview-filling loop in `BagRandomizer::new`:
refill if the bag is empty, then move the popped piece to the queue back. -/
def BagRandomizer.pushFromBag (r : BagRandomizer) : BagRandomizer :=
  let r1 := if r.bag.isEmpty then r.refill_bag else r
  let pb := popBack r1.bag
  { r1 with bag := pb.2, preview_queue := r1.preview_queue ++ [pb.1] }

/-- Iterate `pushFromBag`. -/
def BagRandomizer.fillPreview : BagRandomizer → Nat → BagRandomizer
  | r, 0 => r
  | r, n + 1 => (r.pushFromBag).fillPreview n

/-- `BagRandomizer::new`: fresh state with one refilled bag and a preview
queue of 5 draws. -/
def BagRandomizer.new (bags : Nat → List PieceType) : BagRandomizer :=
  (BagRandomizer.refill_bag ⟨[], [], bags, 0⟩).fillPreview 5

/-- `BagRandomizer::next`: pop the queue front, refill the bag if needed,
move one piece from the bag to the queue back, return the popped front.
Rust unwraps the queue front (the queue holds 5 pieces by construction);
the empty-queue branch is unreachable from `new`. -/
def BagRandomizer.next (r : BagRandomizer) : PieceType × BagRandomizer :=
  match r.preview_queue with
  | [] => (.I, r)
  | front :: rest =>
    let r1 := { r with preview_queue := rest }
    let r2 := if r1.bag.isEmpty then r1.refill_bag else r1
    let pb := popBack r2.bag
    (front, { r2 with bag := pb.2, preview_queue := r2.preview_queue ++ [pb.1] })

/-- `BagRandomizer::peek`: up to `count` queued values, front first. -/
def BagRandomizer.peek (r : BagRandomizer) (count : Nat) : List PieceType :=
  r.preview_queue.take (min count r.preview_queue.length)

/-- `impl Clone for BagRandomizer`: field-wise copy of bag and queue. -/
def BagRandomizer.clone (r : BagRandomizer) : BagRandomizer :=
  { bag := r.bag, preview_queue := r.preview_queue, bags := r.bags,
    refill_count := r.refill_count }

/-- The first `n` pieces delivered by successive `next` calls. -/
def BagRandomizer.drawsN (r : BagRandomizer) : Nat → List PieceType
  | 0 => []
  | n + 1 => (r.next).1 :: ((r.next).2.drawsN n)

/-- The piece stream actually produced by the 7-bag source: draw `j` is the
`(j mod 7)`-th pop (from the back) of shuffle outcome `j / 7`. -/
def bagStream (bags : Nat → List PieceType) (j : Nat) : PieceType :=
  ((bags (j / 7)).reverse).getD (j % 7) .I

/-- Relation between a source state and the number `e` of pieces moved out
of bags so far (into the preview queue or already drawn): either the
current bag is exhausted (and the next refill is outcome `e / 7`), or it
holds the not-yet-popped prefix of outcome `e / 7`. -/
def StateInv (bags : Nat → List PieceType) (e : Nat) (r : BagRandomizer) : Prop :=
  r.bags = bags ∧
  ((r.bag = [] ∧ r.refill_count = e / 7 ∧ e % 7 = 0) ∨
   (r.bag = (bags (e / 7)).take (7 - e % 7) ∧ r.refill_count = e / 7 + 1))

/-- The order-carrying invariant after `n` draws: the bag relation holds at
`e = n + 5` and the preview queue holds draws `n` through `n + 4`. -/
def QInv (bags : Nat → List PieceType) (n : Nat) (r : BagRandomizer) : Prop :=
  StateInv bags (n + 5) r ∧
  r.preview_queue = [bagStream bags n, bagStream bags (n + 1),
    bagStream bags (n + 2), bagStream bags (n + 3), bagStream bags (n + 4)]

/-! ## Game controller (`game.rs`) -/

/-- Play state (`game.rs`, `GameState`). -/
inductive GameState where
  | Playing | Paused | GameOver
deriving DecidableEq, Repr

/-- T-spin classification (`game.rs`, `TSpinType`). -/
inductive TSpinType where
  | None | Mini | Full
deriving DecidableEq, Repr

/-- Score state (`game.rs`, `ScoreSystem`). -/
structure ScoreSystem where
  score : Nat
  level : Nat
  lines_cleared : Nat
deriving DecidableEq, Repr

/-- `ScoreSystem::new`. -/
def ScoreSystem.new : ScoreSystem := ⟨0, 1, 0⟩

/-- `ScoreSystem::add_score_for_lines_with_tspin`. -/
def ScoreSystem.add_score_for_lines_with_tspin (s : ScoreSystem) (lines : Nat)
    (tspin : TSpinType) : ScoreSystem :=
  if lines = 0 then
    match tspin with
    | .Full => { s with score := s.score + 400 * s.level }
    | .Mini => { s with score := s.score + 100 * s.level }
    | .None => s
  else
    let line_multiplier :=
      match lines, tspin with
      | 1, .Full => 800
      | 2, .Full => 1200
      | 3, .Full => 1600
      | 1, .Mini => 200
      | 2, .Mini => 400
      | 1, .None => 100
      | 2, .None => 300
      | 3, .None => 500
      | 4, .None => 800
      | _, _ => 0
    let lines_cleared := s.lines_cleared + lines
    { score := s.score + line_multiplier * s.level,
      lines_cleared := lines_cleared,
      level := lines_cleared / 10 + 1 }

/-- `ScoreSystem::add_perfect_clear_bonus`. -/
def ScoreSystem.add_perfect_clear_bonus (s : ScoreSystem) (lines : Nat) :
    ScoreSystem :=
  let bonus :=
    match lines with
    | 1 => 800
    | 2 => 1200
    | 3 => 1800
    | 4 => 2000
    | _ => 0
  { s with score := s.score + bonus * s.level }

/-- `ScoreSystem::add_soft_drop_score`. -/
def ScoreSystem.add_soft_drop_score (s : ScoreSystem) (rows : Nat) :
    ScoreSystem :=
  { s with score := s.score + rows }

/-- `ScoreSystem::add_hard_drop_score`. -/
def ScoreSystem.add_hard_drop_score (s : ScoreSystem) (rows : Nat) :
    ScoreSystem :=
  { s with score := s.score + rows * 2 }

/-- `LOCK_DELAY`: 500 ms. -/
def LOCK_DELAY : Nat := 500

/-- `MAX_LOCK_RESETS`: 15. -/
def MAX_LOCK_RESETS : Nat := 15

/-- The game state (`game.rs`, `Game`).  Durations are Nat milliseconds.
The boxed `dyn Randomizer` has the 7-bag source as its only implementation,
so the field holds a `BagRandomizer` directly.  The write-only wall-clock
field `last_successful_movement` is omitted (it is never read). -/
structure Game where
  board : Board
  current_piece : Option Piece
  held_piece : Option PieceType
  can_hold : Bool
  state : GameState
  score_system : ScoreSystem
  randomizer : BagRandomizer
  time_since_last_drop : Nat
  gravity_delay : Nat
  lock_delay_timer : Nat
  lock_delay_active : Bool
  lock_delay_resets : Nat

/-- `Game::calculate_gravity_delay`: frames at 60 fps, converted with the
integer division `frames * 1000 / 60` to milliseconds. -/
def Game.calculate_gravity_delay (level : Nat) : Nat :=
  let frames :=
    match level with
    | 1 => 60
    | 2 => 48
    | 3 => 36
    | 4 => 28
    | 5 => 22
    | 6 => 16
    | 7 => 12
    | 8 => 8
    | 9 => 6
    | 10 | 11 | 12 => 4
    | 13 | 14 | 15 => 3
    | 16 | 17 | 18 => 2
    | _ => 1
  frames * 1000 / 60

/-- `Game::spawn_new_piece`: draw from the randomizer, position at the spawn
cell (column `10/2 - 1 = 4`, row −1 for I, 0 otherwise); entering a blocked
position sets `GameOver` and clears the active piece. -/
def Game.spawn_new_piece (g : Game) : Game :=
  let drawn := g.randomizer.next
  let piece_type := drawn.1
  let col : Int := 10 / 2 - 1
  let row : Int := if piece_type = PieceType.I then -1 else 0
  let new_piece := Piece.new piece_type row col
  if ¬ g.board.can_place new_piece then
    { g with state := .GameOver, current_piece := none, randomizer := drawn.2 }
  else
    { g with current_piece := some new_piece, randomizer := drawn.2 }

/-- The `usize` image of a signed pivot coordinate (`as usize` wraps). -/
def usizeOfInt (i : Int) : Nat := (i % (2 ^ 64)).toNat

/-- Checked `usize` subtraction: `none` marks the arithmetic underflow that
panics in a Rust debug build (and wraps in release). -/
def usizeSub (a b : Nat) : Option Nat :=
  if b ≤ a then some (a - b) else none

/-- Checked `usize` addition: `none` marks overflow past `usize::MAX`. -/
def usizeAdd (a b : Nat) : Option Nat :=
  if a + b < 2 ^ 64 then some (a + b) else none

/-- `Game::is_cell_filled`: filled or out of bounds. -/
def Game.is_cell_filled (g : Game) (row col : Nat) : Bool :=
  if row ≥ BOARD_HEIGHT ∨ col ≥ BOARD_WIDTH then true
  else cellFilled (g.board.get_cell row col)

/-- `Game::detect_tspin`.  The source computes the four diagonal corner
coordinates with unchecked `usize` arithmetic offset by ±1 from the pivot
(after the wrapping cast `as usize`); the checked operations surface the
underflow of `row - 1` / `col - 1` (and the overflow of `+ 1`) as `none`,
which is where a debug build panics.  A `some` result is the classification
the source returns when no underflow occurs. -/
def Game.detect_tspin (g : Game) : Option TSpinType :=
  match g.current_piece with
  | none => some .None
  | some piece =>
    if piece.piece_type = PieceType.T then
      let row := usizeOfInt piece.row
      let col := usizeOfInt piece.col
      do
        let rm1 ← usizeSub row 1
        let cm1 ← usizeSub col 1
        let cp1 ← usizeAdd col 1
        let rp1 ← usizeAdd row 1
        let corners := [(rm1, cm1), (rm1, cp1), (rp1, cm1), (rp1, cp1)]
        let filled_corners :=
          corners.countP fun rc => g.is_cell_filled rc.1 rc.2
        if filled_corners ≥ 3 then
          let front_corners_filled :=
            match piece.rotation with
            | .North =>
              (if g.is_cell_filled rp1 cm1 then 1 else 0) +
              (if g.is_cell_filled rp1 cp1 then 1 else 0)
            | .East =>
              (if g.is_cell_filled rm1 cm1 then 1 else 0) +
              (if g.is_cell_filled rp1 cm1 then 1 else 0)
            | .South =>
              (if g.is_cell_filled rm1 cm1 then 1 else 0) +
              (if g.is_cell_filled rm1 cp1 then 1 else 0)
            | .West =>
              (if g.is_cell_filled rm1 cp1 then 1 else 0) +
              (if g.is_cell_filled rp1 cp1 then 1 else 0)
          if front_corners_filled ≥ 1 then pure .Full else pure .Mini
        else
          pure .None
    else
      some .None

/-- `Game::lock_piece`: take the active piece (leaving `current_piece`
empty), classify the spin ON THE EMPTIED STATE (this is what the source
does: `self.current_piece.take()` runs before `self.detect_tspin()`),
commit the piece, clear lines, score, refresh gravity, re-enable hold,
reset lock delay, spawn the next piece.  With the piece already taken,
`detect_tspin` is the no-piece branch, so the fallback for its
underflow-`none` is unreachable here. -/
def Game.lock_piece (g : Game) : Game :=
  match g.current_piece with
  | none => g
  | some piece =>
    let g1 := { g with current_piece := none }
    let tspin :=
      match g1.detect_tspin with
      | some t => t
      | none => TSpinType.None
    let board1 := (g1.board.place_piece piece).2
    let cleared := board1.clear_lines
    let lines_cleared := cleared.1
    let board2 := cleared.2
    let is_perfect_clear := lines_cleared > 0 ∧ board2.is_perfect_clear
    let score1 := g1.score_system.add_score_for_lines_with_tspin lines_cleared tspin
    let score2 :=
      if is_perfect_clear then score1.add_perfect_clear_bonus lines_cleared
      else score1
    let g2 := { g1 with
      board := board2,
      score_system := score2,
      gravity_delay := Game.calculate_gravity_delay score2.level,
      can_hold := true,
      lock_delay_active := false,
      lock_delay_timer := 0 }
    g2.spawn_new_piece

/-- `Game::try_reset_lock_delay`. -/
def Game.try_reset_lock_delay (g : Game) : Game :=
  if g.lock_delay_active ∧ g.lock_delay_resets < MAX_LOCK_RESETS then
    { g with lock_delay_timer := 0, lock_delay_resets := g.lock_delay_resets + 1 }
  else g

/-- `Game::move_left`. -/
def Game.move_left (g : Game) : Bool × Game :=
  match g.current_piece with
  | none => (false, g)
  | some p =>
    let moved := p.with_left_move
    if g.board.can_place moved then
      (true, Game.try_reset_lock_delay { g with current_piece := some moved })
    else (false, g)

/-- `Game::move_right`. -/
def Game.move_right (g : Game) : Bool × Game :=
  match g.current_piece with
  | none => (false, g)
  | some p =>
    let moved := p.with_right_move
    if g.board.can_place moved then
      (true, Game.try_reset_lock_delay { g with current_piece := some moved })
    else (false, g)

/-- `Game::move_down` (soft drop): award 1 point per row; when blocked,
start lock delay if it is not yet active. -/
def Game.move_down (g : Game) : Bool × Game :=
  match g.current_piece with
  | none => (false, g)
  | some p =>
    let moved := p.with_down_move
    if g.board.can_place moved then
      (true, { g with
        score_system := g.score_system.add_soft_drop_score 1,
        current_piece := some moved })
    else if ¬ g.lock_delay_active then
      (false, { g with
        lock_delay_active := true, lock_delay_timer := 0, lock_delay_resets := 0 })
    else (false, g)

/-- `Game::rotate_clockwise`. -/
def Game.rotate_clockwise (g : Game) : Bool × Game :=
  match g.current_piece with
  | none => (false, g)
  | some p =>
    match RotationSystem.rotate_clockwise p g.board with
    | some rotated =>
      (true, Game.try_reset_lock_delay { g with current_piece := some rotated })
    | none => (false, g)

/-- `Game::rotate_counterclockwise`. -/
def Game.rotate_counterclockwise (g : Game) : Bool × Game :=
  match g.current_piece with
  | none => (false, g)
  | some p =>
    match RotationSystem.rotate_counterclockwise p g.board with
    | some rotated =>
      (true, Game.try_reset_lock_delay { g with current_piece := some rotated })
    | none => (false, g)

/-- The descent loop of `Game::hard_drop`, with fuel.  The fuel
`p.row.natAbs + 24` always suffices for a piece that still has a cell with
non-negative column: `can_place` fails once every real cell passes row 21.
(For a piece whose cells ALL have negative column, `can_place` is vacuously
true forever and the Rust loop never terminates; such pivots are unreachable
in play, and there the model simply stops when the fuel runs out.) -/
def dropLoop (b : Board) : Nat → Piece → Nat → Piece × Nat
  | 0, p, d => (p, d)
  | fuel + 1, p, d =>
    let moved := p.with_down_move
    if b.can_place moved then dropLoop b fuel moved (d + 1) else (p, d)

/-- `Game::hard_drop`: descend to the floor, award 2 points per row fallen,
then lock immediately. -/
def Game.hard_drop (g : Game) : Bool × Game :=
  match g.current_piece with
  | none => (false, g)
  | some p0 =>
    let dropped := dropLoop g.board (p0.row.natAbs + 24) p0 0
    let g1 := { g with
      score_system := g.score_system.add_hard_drop_score dropped.2,
      current_piece := some dropped.1 }
    (true, g1.lock_piece)

/-- `Game::hold_piece`: reject when holding is disallowed or no piece is
active; swap with the held shape when one exists (placing it at the spawn
position with NO placement check), otherwise stash and spawn normally. -/
def Game.hold_piece (g : Game) : Bool × Game :=
  if ¬ g.can_hold then (false, g)
  else
    match g.current_piece with
    | none => (false, g)
    | some current_piece =>
      let current_type := current_piece.piece_type
      let g1 :=
        match g.held_piece with
        | some held_type =>
          let col : Int := 10 / 2 - 1
          let row : Int := if held_type = PieceType.I then -1 else 0
          { g with current_piece := some (Piece.new held_type row col) }
        | none => { g with current_piece := none }.spawn_new_piece
      (true, { g1 with held_piece := some current_type, can_hold := false })

/-- `Game::update`: accumulate gravity time, attempt the gravity step when
due (starting lock delay on a blocked descent), then accumulate lock-delay
time and lock once it reaches `LOCK_DELAY`.  Returns `false` without any
change unless the game is `Playing`. -/
def Game.update (g : Game) (dt : Nat) : Bool × Game :=
  if g.state ≠ GameState.Playing then (false, g)
  else
    let g1 := { g with time_since_last_drop := g.time_since_last_drop + dt }
    let g2 :=
      if g1.time_since_last_drop ≥ g1.gravity_delay then
        let ga := { g1 with time_since_last_drop := 0 }
        match ga.current_piece with
        | some current_piece =>
          let moved := current_piece.with_down_move
          if ga.board.can_place moved then
            { ga with current_piece := some moved,
                      lock_delay_active := false, lock_delay_timer := 0 }
          else if ¬ ga.lock_delay_active then
            { ga with lock_delay_active := true, lock_delay_timer := 0,
                      lock_delay_resets := 0 }
          else ga
        | none => ga
      else g1
    let g3 :=
      if g2.lock_delay_active then
        let gb := { g2 with lock_delay_timer := g2.lock_delay_timer + dt }
        if gb.lock_delay_timer ≥ LOCK_DELAY then
          { gb.lock_piece with lock_delay_active := false, lock_delay_timer := 0 }
        else gb
      else g2
    (true, g3)

/-- `Game::peek_next_pieces`. -/
def Game.peek_next_pieces (g : Game) (count : Nat) : List PieceType :=
  g.randomizer.peek count

/-- Modelled from the spec: the repository calls `game.clone()` in the bot
(`bot/mod.rs`, `bot/move_finder.rs`) but contains no `impl Clone for Game`
under src/ (only `Randomizer::clone_box` and the callers are present).
Following the spec — "cloning must produce a fully independent copy
(including an independent piece-source draw state)" — the clone is a
field-wise deep copy, which for these immutable values is the identity
rebuild. -/
def Game.clone (g : Game) : Game :=
  { board := g.board,
    current_piece := g.current_piece,
    held_piece := g.held_piece,
    can_hold := g.can_hold,
    state := g.state,
    score_system := g.score_system,
    randomizer := g.randomizer.clone,
    time_since_last_drop := g.time_since_last_drop,
    gravity_delay := g.gravity_delay,
    lock_delay_timer := g.lock_delay_timer,
    lock_delay_active := g.lock_delay_active,
    lock_delay_resets := g.lock_delay_resets }

/-! ## Board evaluator (`bot/evaluator.rs`)

The metrics are integer-valued; the weighted combination uses `f64`.  Every
metric here is a small natural number (each bounded by a few thousand), so
its `f64` image is exact; the weights are modelled by the rational values
of their decimal literals.  No theorem below depends on the rounding of the
weight literals themselves. -/

/-- Evaluation weights (`EvaluationWeights`, default values). -/
structure EvaluationWeights where
  aggregate_height_weight : ℚ
  complete_lines_weight : ℚ
  holes_weight : ℚ
  bumpiness_weight : ℚ
  landing_height_weight : ℚ
  well_weight : ℚ

/-- `EvaluationWeights::default`. -/
def EvaluationWeights.default : EvaluationWeights :=
  { aggregate_height_weight := -510066 / 1000000,
    complete_lines_weight := 760666 / 1000000,
    holes_weight := -35663 / 100000,
    bumpiness_weight := -184483 / 1000000,
    landing_height_weight := 0,
    well_weight := 3 / 10 }

/-- `BoardEvaluator::get_column_heights`: for each column, the distance from
the floor to the topmost filled cell (0 when the column is empty). -/
def get_column_heights (b : Board) : List Nat :=
  (List.range BOARD_WIDTH).map fun col =>
    match (List.range BOARD_HEIGHT).find? (fun row =>
        cellFilled (b.get_cell row col)) with
    | some row => BOARD_HEIGHT - row
    | none => 0

/-- `BoardEvaluator::count_holes`: empty cells strictly below each column's
topmost filled cell. -/
def count_holes (b : Board) (column_heights : List Nat) : Nat :=
  (List.range BOARD_WIDTH).foldl
    (fun holes col =>
      let col_height := column_heights.getD col 0
      let top_row := BOARD_HEIGHT - col_height
      holes + ((List.range BOARD_HEIGHT).filter
        (fun row => top_row + 1 ≤ row ∧
          b.get_cell row col = some Cell.Empty)).length)
    0

/-- `BoardEvaluator::count_complete_lines`. -/
def count_complete_lines (b : Board) : Nat :=
  ((List.range BOARD_HEIGHT).filter fun row =>
    (List.range BOARD_WIDTH).all fun col =>
      b.get_cell row col ≠ some Cell.Empty).length

/-- `BoardEvaluator::calculate_bumpiness`: sum of |h[i] − h[i+1]|. -/
def calculate_bumpiness (column_heights : List Nat) : Nat :=
  ((List.range (column_heights.length - 1)).map fun i =>
    ((column_heights.getD i 0 : Int) - column_heights.getD (i + 1) 0).natAbs).sum

/-- One term of the well loop in `BoardEvaluator::calculate_wells`: a
missing neighbour is replaced by the column's own height, and the column
counts only when `current + 3 < left` and `current + 3 < right` both hold
strictly; the contribution is `(min left right − current)²`. -/
def wellTerm (column_heights : List Nat) (i : Nat) : Nat :=
  let current := column_heights.getD i 0
  let left := if i > 0 then column_heights.getD (i - 1) 0 else current
  let right :=
    if i < column_heights.length - 1 then column_heights.getD (i + 1) 0
    else current
  if current + 3 < left ∧ current + 3 < right then
    let depth := min left right - current
    depth * depth
  else 0

/-- `BoardEvaluator::calculate_wells`: sum of the loop terms. -/
def calculate_wells (column_heights : List Nat) : Nat :=
  ((List.range column_heights.length).map (wellTerm column_heights)).sum

/-- `BoardEvaluator::evaluate`: the weighted linear combination. -/
def evaluate (w : EvaluationWeights) (g : Game) : ℚ :=
  let column_heights := get_column_heights g.board
  let aggregate_height : ℚ := (column_heights.sum : ℕ)
  let holes := count_holes g.board column_heights
  let complete_lines := count_complete_lines g.board
  let bumpiness := calculate_bumpiness column_heights
  let wells := calculate_wells column_heights
  w.aggregate_height_weight * aggregate_height +
    w.holes_weight * holes +
    w.complete_lines_weight * complete_lines +
    w.bumpiness_weight * bumpiness +
    w.well_weight * wells

/-! ## Move enumeration and the bot (`bot/move_finder.rs`, `bot/mod.rs`) -/

/-- A candidate action sequence (`move_finder.rs`, `Move`).  The step counts
are `u8` in the source; values are produced by the `as u8` truncating cast
modelled with `% 256`. -/
structure Move where
  left_moves : Nat
  right_moves : Nat
  clockwise_rotations : Nat
  counterclockwise_rotations : Nat
  hard_drop : Bool
  hold : Bool
deriving DecidableEq, Repr

/-- `Move::new`. -/
def Move.new (l r cw ccw : Nat) (hd hold : Bool) : Move :=
  ⟨l, r, cw, ccw, hd, hold⟩

/-- The truncating cast `usize as u8`. -/
def u8OfNat (n : Nat) : Nat := n % 256

/-- The inner rotation loop of `find_possible_moves`: apply up to `n`
rotations to the clone, stopping at the first failure (the `break` leaves
the rotation loop but the enumeration continues with the piece as it then
stands). -/
def applyRotationsClone (ccw : Bool) : Nat → Game → Game
  | 0, g => g
  | n + 1, g =>
    let (ok, g1) := if ccw then g.rotate_counterclockwise else g.rotate_clockwise
    if ok then applyRotationsClone ccw n g1 else g1

/-- One (rotation count, target column) candidate of `find_possible_moves`:
simulate the rotations on a clone, read off the resulting pivot column
(`piece.col as usize`), derive signed left/right step counts (cast to
`u8`), or skip the pair when the clone has no piece (`continue`). -/
def candidateMove (g : Game) (ccw : Bool) (rotations position : Nat) :
    Option Move :=
  let game_clone := applyRotationsClone ccw rotations g.clone
  match game_clone.current_piece with
  | none => none
  | some piece =>
    let current_position := usizeOfInt piece.col
    let lr :=
      if position < current_position then
        (u8OfNat (current_position - position), 0)
      else
        (0, u8OfNat (position - current_position))
    if ccw then
      some (Move.new lr.1 lr.2 0 rotations true false)
    else
      some (Move.new lr.1 lr.2 rotations 0 true false)

/-- The doubly-nested enumeration loop over `(rotations, position)` pairs,
with the early return once `max_moves` candidates have been generated (the
source checks the cap after each push). -/
def moveLoop (g : Game) (max_moves : Nat) (ccw : Bool) :
    List (Nat × Nat) → List Move → List Move
  | [], acc => acc
  | (rotations, position) :: rest, acc =>
    match candidateMove g ccw rotations position with
    | none => moveLoop g max_moves ccw rest acc
    | some m =>
      let acc1 := acc ++ [m]
      if acc1.length ≥ max_moves then acc1
      else moveLoop g max_moves ccw rest acc1

/-- `MoveFinder::find_possible_moves` (with `max_moves_to_consider` as the
explicit first argument; `MoveFinder::new` sets it to 500): the optional
hold-first move, the clockwise pass over rotation counts 0–3 × columns
0–9, then the counter-clockwise pass over rotation counts 1–3. -/
def find_possible_moves (max_moves : Nat) (g : Game) : List Move :=
  match g.current_piece with
  | none => []
  | some _ =>
    let moves0 := if g.can_hold then [Move.new 0 0 0 0 true true] else []
    let cwPairs := (List.range 4).flatMap fun rot =>
      (List.range BOARD_WIDTH).map fun pos => (rot, pos)
    let moves1 := moveLoop g max_moves false cwPairs moves0
    if moves1.length ≥ max_moves then moves1
    else
      let ccwPairs := (List.range 3).flatMap fun rot =>
        (List.range BOARD_WIDTH).map fun pos => (rot + 1, pos)
      moveLoop g max_moves true ccwPairs moves1

/-- Repeat a fallible action `n` times, aborting at the first failure
(the replay loops of `MoveFinder::apply_move`). -/
def repeatAction : Nat → (Game → Bool × Game) → Game → Bool × Game
  | 0, _, g => (true, g)
  | n + 1, act, g =>
    let (ok, g1) := act g
    if ok then repeatAction n act g1 else (false, g1)

/-- `MoveFinder::apply_move`: hold (when requested and available), then
clockwise rotations, counter-clockwise rotations, left steps, right steps,
then the hard drop; abort at the first failing sub-action with the partial
state kept (no rollback). -/
def apply_move (g : Game) (m : Move) : Bool × Game :=
  let (ok, g1) :=
    if m.hold ∧ g.can_hold then g.hold_piece else (true, g)
  if ¬ ok then (false, g1)
  else
    let (ok, g2) := repeatAction m.clockwise_rotations Game.rotate_clockwise g1
    if ¬ ok then (false, g2)
    else
      let (ok, g3) :=
        repeatAction m.counterclockwise_rotations Game.rotate_counterclockwise g2
      if ¬ ok then (false, g3)
      else
        let (ok, g4) := repeatAction m.left_moves Game.move_left g3
        if ¬ ok then (false, g4)
        else
          let (ok, g5) := repeatAction m.right_moves Game.move_right g4
          if ¬ ok then (false, g5)
          else if m.hard_drop then g5.hard_drop
          else (true, g5)

/-- The comparison `score > best_score` of `TetrisBot::make_move`, where
`best_score` starts at `f64::NEG_INFINITY`: `none` models negative
infinity.  `evaluate` always yields a finite value, so the first candidate
always wins against `none`. -/
def betterScore (score : ℚ) : Option ℚ → Bool
  | none => true
  | some best => score > best

/-- The candidate-selection loop of `TetrisBot::make_move`: for each
candidate apply it to a clone of the game, evaluate the resulting board
(whether or not the replay succeeded), and keep the strictly best score
(first seen wins ties).  `best_move` starts at `&possible_moves[0]`. -/
def select_best (g : Game) (moves : List Move) : Move :=
  (moves.foldl
    (fun (acc : Move × Option ℚ) possible_move =>
      let game_clone := (apply_move g.clone possible_move).2
      let score := evaluate EvaluationWeights.default game_clone
      if betterScore score acc.2 then (possible_move, some score) else acc)
    (moves.headD (Move.new 0 0 0 0 false false), none)).1

/-- `TetrisBot::make_move`: enumerate candidates (`MoveFinder::new`, cap
500); report `false` when there are none; otherwise pick the best by
simulation on clones and apply it to the real game, reporting `true`
regardless of whether that replay succeeds. -/
def make_move (g : Game) : Bool × Game :=
  let possible_moves := find_possible_moves 500 g
  if possible_moves.isEmpty then (false, g)
  else
    let best_move := select_best g possible_moves
    (true, (apply_move g best_move).2)

/-! ## Concrete test fixtures

`create_board_with_blocks` mirrors the helper of the same name in the
repository's rotation tests: fill the listed cells with I-blocks. -/

/-- Fill the listed `(row, col)` cells of an empty board. -/
def create_board_with_blocks (filled_cells : List (Nat × Nat)) : Board :=
  filled_cells.foldl
    (fun b rc => (b.set_cell rc.1 rc.2 (Cell.Filled PieceType.I)).2)
    Board.new

/-- A shuffle-outcome stream that always yields the unshuffled bag. -/
def constBags : Nat → List PieceType := fun _ => fullBag

/-- A playing game with the given board and active piece and otherwise
initial state (level 1, zero score, hold available, lock delay inactive). -/
def mkTestGame (b : Board) (p : Option Piece) : Game :=
  { board := b, current_piece := p, held_piece := none, can_hold := true,
    state := .Playing, score_system := ScoreSystem.new,
    randomizer := BagRandomizer.new constBags,
    time_since_last_drop := 0, gravity_delay := 1000,
    lock_delay_timer := 0, lock_delay_active := false, lock_delay_resets := 0 }

/-- A board whose rows 20 and 21 are fully occupied. -/
def rows2021Board : Board :=
  create_board_with_blocks
    ((List.range 10).map (fun c => (20, c)) ++
     (List.range 10).map (fun c => (21, c)))

/-- A T-spin-double lock position: the T piece (South) at pivot (20, 1)
with all four diagonal corners of the pivot occupied; committing the piece
completes rows 19 and 21 (two simultaneously complete, non-adjacent rows,
so that the line-clear loop actually removes both). -/
def tspinBoard : Board :=
  create_board_with_blocks
    (((List.range 10).filter (fun c => c ≠ 1)).map (fun c => (19, c)) ++
     [3, 4, 5, 6, 7, 8].map (fun c => (20, c)) ++
     (List.range 10).map (fun c => (21, c)))

/-- The T piece locking into `tspinBoard`. -/
def tspinPiece : Piece := ⟨.T, 20, 1, .South⟩

/-- The game about to lock a full T-spin double at level 1. -/
def tspinDoubleGame : Game := mkTestGame tspinBoard (some tspinPiece)

/-- A game holding a T piece with its pivot in the top row. -/
def tAtTopGame : Game := mkTestGame Board.new (some ⟨.T, 0, 4, .North⟩)

/-- A game holding a T piece with its pivot in the leftmost column. -/
def tAtLeftGame : Game := mkTestGame Board.new (some ⟨.T, 5, 0, .North⟩)

/-- The I piece at its spawn position: pivot row −1, so all four of its
cells sit above the grid. -/
def spawnIPiece : Piece := ⟨.I, -1, 4, .North⟩

/-- Modelled from the spec wording of claim C8, for comparison with the
source's `calculate_wells`: a column whose height is AT LEAST 3 less than
both neighbours (an edge column compared only against its single
neighbour) contributes the square of (minimum neighbour height − column
height). -/
def claimed_well_term (hs : List Nat) (i : Nat) : Nat :=
  let current := hs.getD i 0
  let neighbors : List Nat :=
    (if i > 0 then [hs.getD (i - 1) 0] else []) ++
    (if i + 1 < hs.length then [hs.getD (i + 1) 0] else [])
  match neighbors with
  | [a] => if current + 3 ≤ a then (a - current) * (a - current) else 0
  | [a, b] =>
    if current + 3 ≤ a ∧ current + 3 ≤ b then
      (min a b - current) * (min a b - current)
    else 0
  | _ => 0

/-- The well sum as claim C8 words it. -/
def claimed_well_sum (hs : List Nat) : Nat :=
  ((List.range hs.length).map (claimed_well_term hs)).sum

/-- Column heights 3, 0, 3, 0, …: column 1 is exactly 3 below both
neighbours. -/
def wellsCexBoard : Board :=
  create_board_with_blocks [(19, 0), (20, 0), (21, 0), (19, 2), (20, 2), (21, 2)]

/-- The per-column contribution as the code actually computes it, written
with real neighbours: only interior columns, and only when both
neighbours exceed the column height by MORE than 3. -/
def amended_well_term (hs : List Nat) (i : Nat) : Nat :=
  if 0 < i ∧ i + 1 < hs.length ∧
      hs.getD i 0 + 3 < hs.getD (i - 1) 0 ∧
      hs.getD i 0 + 3 < hs.getD (i + 1) 0 then
    (min (hs.getD (i - 1) 0) (hs.getD (i + 1) 0) - hs.getD i 0) *
      (min (hs.getD (i - 1) 0) (hs.getD (i + 1) 0) - hs.getD i 0)
  else 0

/-- A T piece resting on the floor (its downward neighbour is off the
board). -/
def lockDelayPiece : Piece := ⟨.T, 20, 4, .North⟩

/-- A playing game with lock delay active for `lockDelayPiece`. -/
def lockDelayGame : Game :=
  { mkTestGame Board.new (some lockDelayPiece) with lock_delay_active := true }

/-- A concrete shuffle outcome (the unshuffled bag order). -/
def cexBagA : List PieceType := [.I, .O, .T, .S, .Z, .J, .L]

/-- A second concrete shuffle outcome whose final pop (`I`) repeats a piece
drawn late from `cexBagA`. -/
def cexBagB : List PieceType := [.J, .L, .Z, .S, .T, .O, .I]

/-- A shuffle-outcome stream: `cexBagA` first, `cexBagB` afterwards. -/
def cexBags : Nat → List PieceType := fun k => if k = 0 then cexBagA else cexBagB

/-! ## C3 — `can_place` and off-grid cells -/

/-- Helper for the per-cell reading of `can_place`'s loop body. -/
theorem can_place_cell_iff (b : Board) (rc : Nat × Nat) :
    (if rc.1 ≥ BOARD_HEIGHT ∨ rc.2 ≥ BOARD_WIDTH then false
     else if cellFilled (b.get_cell rc.1 rc.2) then false else true) = true ↔
      rc.1 < BOARD_HEIGHT ∧ rc.2 < BOARD_WIDTH ∧
        cellFilled (b.get_cell rc.1 rc.2) = false := by
  by_cases h1 : rc.1 ≥ BOARD_HEIGHT ∨ rc.2 ≥ BOARD_WIDTH
  · rw [if_pos h1]
    constructor
    · intro hf
      exact absurd hf (by simp)
    · rintro ⟨ha, hb, _⟩
      omega
  · rw [if_neg h1]
    by_cases h2 : cellFilled (b.get_cell rc.1 rc.2) = true
    · rw [if_pos h2]
      constructor
      · intro hf
        exact absurd hf (by simp)
      · rintro ⟨_, _, hc⟩
        rw [h2] at hc
        cases hc
    · rw [if_neg h2]
      constructor
      · intro _
        exact ⟨by omega, by omega, by simpa using h2⟩
      · intro _
        rfl

/-- C3 (amended): `can_place` accepts a piece exactly when every cell that
SURVIVES the non-negativity filter of `get_blocks` is inside
`[0,H) × [0,W)` and empty; cells of the piece with a negative row or
column are dropped by `get_blocks` before the check and therefore never
cause rejection. -/
theorem can_place_iff_blocks_free (b : Board) (p : Piece) :
    b.can_place p = true ↔
      ∀ rc ∈ p.get_blocks, rc.1 < BOARD_HEIGHT ∧ rc.2 < BOARD_WIDTH ∧
        cellFilled (b.get_cell rc.1 rc.2) = false := by
  unfold Board.can_place
  rw [List.all_eq_true]
  constructor
  · intro h rc hrc
    have hx := h rc hrc
    exact (can_place_cell_iff b rc).mp hx
  · intro h rc hrc
    exact (can_place_cell_iff b rc).mpr (h rc hrc)

/-- C3 (counterexample): the I piece at its spawn pivot (−1, 4) has all
four occupied cells outside `[0,W)×[0,H)` (they are the four signed cells
listed, each with row −1), yet `can_place` returns `true` on the empty
board, because `get_blocks` silently discards all of them. -/
theorem can_place_accepts_offgrid_piece :
    spawnIPiece.signed_cells = [(-1, 3), (-1, 4), (-1, 5), (-1, 6)] ∧
    spawnIPiece.get_blocks = [] ∧
    Board.new.can_place spawnIPiece = true := by decide

/-! ## C2 — `clear_lines` on two adjacent complete rows -/

/-- C2 (code bug): with rows 20 and 21 both fully occupied, `clear_lines`
returns 1 — not 2 — and the resulting board still contains a fully
occupied row at index 21: removing row 21 shifts the complete row 20 down
into index 21, and the bottom-to-top scan never revisits that index.  (The
third and fourth conjuncts document that both rows were complete before
the call.) -/
theorem clear_lines_skips_shifted_adjacent_row :
    rows2021Board.is_line_complete 20 = true ∧
    rows2021Board.is_line_complete 21 = true ∧
    (rows2021Board.clear_lines).1 = 1 ∧
    (rows2021Board.clear_lines).2.is_line_complete 21 = true := by decide

/-! ## C4 — spin classification at row 0 / column 0 -/

/-- C4 (code bug): for a T piece whose pivot sits at row 0 (and likewise at
column 0), `detect_tspin` reaches the unchecked `usize` subtraction
`row - 1` (resp. `col - 1`) BEFORE any bounds test, so the classification
does not complete: the checked model returns `none`, the spot where a
debug build panics on underflow (a release build wraps).  Away from the
edges the classification completes normally (last conjunct). -/
theorem detect_tspin_underflows_at_edges :
    tAtTopGame.current_piece = some ⟨.T, 0, 4, .North⟩ ∧
    tAtTopGame.detect_tspin = none ∧
    tAtLeftGame.current_piece = some ⟨.T, 5, 0, .North⟩ ∧
    tAtLeftGame.detect_tspin = none ∧
    (mkTestGame Board.new (some ⟨.T, 5, 5, .North⟩)).detect_tspin =
      some TSpinType.None := by decide

/-! ## C1 — scoring a full T-spin double -/

/-- C1 (code bug): `tspinDoubleGame` locks a T piece whose final position
qualifies as a full spin (first conjunct: classification on the state
still holding the piece), clearing exactly 2 lines at level 1 — yet the
lock adds 300 points (a plain double), not 1200: `lock_piece` runs
`self.current_piece.take()` BEFORE `self.detect_tspin()`, so the
classifier always sees an empty piece slot and reports no spin. -/
theorem lock_tspin_double_scores_as_plain_double :
    tspinDoubleGame.detect_tspin = some TSpinType.Full ∧
    tspinDoubleGame.score_system.level = 1 ∧
    tspinDoubleGame.score_system.score = 0 ∧
    (tspinDoubleGame.lock_piece).score_system.lines_cleared = 2 ∧
    (tspinDoubleGame.lock_piece).score_system.score = 300 := by decide

/-! ## C10 — hold with a piece already held -/

/-- C10: when a shape is already held, holding is allowed, and an active
piece exists, `hold_piece` returns `true` and installs the held shape at
the standard spawn position (column 4; row −1 for I, 0 otherwise) with no
placement-legality check of any kind: the entire resulting state is given
by the record on the right, whatever the board contents — in particular
the play state is exactly `g.state` (the swap path can never set
`GameOver`) and the board is untouched. -/
theorem hold_swap_is_unchecked (g : Game) (p : Piece) (h : PieceType)
    (hch : g.can_hold = true) (hcp : g.current_piece = some p)
    (hh : g.held_piece = some h) :
    g.hold_piece =
      (true, { g with
        current_piece :=
          some (Piece.new h (if h = PieceType.I then -1 else 0) (10 / 2 - 1)),
        held_piece := some p.piece_type,
        can_hold := false }) := by
  unfold Game.hold_piece
  rw [hcp, hh]
  simp [hch]

/-- C10 witness: a game whose spawn cell (0, 4) is occupied; the swapped-in
T piece overlaps it (`can_place` is false at the spawn position), yet the
hold succeeds, leaves the state `Playing`, and installs the overlapping
piece. -/
theorem hold_swap_is_unchecked_witness :
    (mkTestGame (create_board_with_blocks [(0, 4)])
        (some ⟨.S, 10, 4, .North⟩)).can_hold = true ∧
    Board.can_place (create_board_with_blocks [(0, 4)]) (Piece.new .T 0 4)
      = false ∧
    ({ mkTestGame (create_board_with_blocks [(0, 4)])
        (some ⟨.S, 10, 4, .North⟩) with held_piece := some .T }).hold_piece =
      (true, { ({ mkTestGame (create_board_with_blocks [(0, 4)])
          (some ⟨.S, 10, 4, .North⟩) with held_piece := some .T }) with
        current_piece := some (Piece.new .T (if PieceType.T = PieceType.I then -1 else 0) (10 / 2 - 1)),
        held_piece := some PieceType.S,
        can_hold := false }) :=
  ⟨rfl, by decide,
    hold_swap_is_unchecked _ ⟨.S, 10, 4, .North⟩ .T rfl rfl rfl⟩

/-! ## C6 — cloning isolates the search from the real game -/

/-- C6: cloning a game yields an identical, fully independent value
(including the piece source's bag and preview queue), applying any
candidate move to the clone computes exactly what it would compute on the
original value — the original being immutable throughout — and the bot's
single-move step commits to the real game a state derived from the
original, unsimulated game only.  (The `Game` `Clone` implementation is
absent from src/; `Game.clone` is modelled from the spec as a field-wise
deep copy.) -/
theorem clone_isolates_simulation (g : Game) (m : Move) :
    Game.clone g = g ∧
    apply_move (Game.clone g) m = apply_move g m ∧
    make_move g =
      (if (find_possible_moves 500 g).isEmpty then (false, g)
       else (true, (apply_move g (select_best g (find_possible_moves 500 g))).2)) := by
  have hclone : Game.clone g = g := by
    cases g with
    | mk board cp hp ch st sc rand t gd lt la lr =>
      cases rand
      rfl
  refine ⟨hclone, by rw [hclone], ?_⟩
  unfold make_move
  rfl

/-! ## C8 — the evaluator's well sum -/

/-- C8 (counterexample): on `wellsCexBoard` (heights 3,0,3,0,…,0) the
claimed rule adds 9 for column 1 (exactly 3 below both neighbours, depth
3²), but the evaluator's `calculate_wells` adds 0: the source requires
`current + 3 < neighbour` STRICTLY, and substitutes the column's own
height for a missing neighbour, so edge columns can never qualify
either. -/
theorem wells_differ_from_claim :
    get_column_heights wellsCexBoard = [3, 0, 3, 0, 0, 0, 0, 0, 0, 0] ∧
    claimed_well_sum (get_column_heights wellsCexBoard) = 9 ∧
    calculate_wells (get_column_heights wellsCexBoard) = 0 := by decide

/-- The loop term equals the amended per-column rule. -/
theorem wellTerm_eq_amended (hs : List Nat) (i : Nat) :
    wellTerm hs i = amended_well_term hs i := by
  unfold wellTerm amended_well_term
  by_cases h0 : 0 < i
  · by_cases hl : i < hs.length - 1
    · have h0' : i > 0 := h0
      have hl' : i + 1 < hs.length := by omega
      simp only [h0', if_true, hl, hl', true_and]
    · have hl' : ¬ (i + 1 < hs.length) := by omega
      simp only [h0, if_true, hl, if_false, hl']
      have : ¬ (hs.getD i 0 + 3 < hs.getD (i - 1) 0 ∧
          hs.getD i 0 + 3 < hs.getD i 0) := by omega
      simp only [this, if_false]
      simp [hl']
  · have h0' : i = 0 := by omega
    subst h0'
    have : ¬ (hs.getD 0 0 + 3 < hs.getD 0 0 ∧
        hs.getD 0 0 + 3 < (if 0 < hs.length - 1 then hs.getD 1 0 else hs.getD 0 0)) := by
      by_cases h : 0 < hs.length - 1 <;> simp [h]
    simp only [gt_iff_lt, lt_irrefl, if_false]
    simp only [this, if_false]
    simp

/-- C8 (amended): for every board, the evaluator's well sum adds, for each
INTERIOR column whose height is MORE than 3 less than both of its real
neighbours, the square of (minimum neighbour height minus the column
height), and adds nothing for any other column — in particular edge
columns never contribute (the source substitutes the column's own height
for the missing neighbour, which can never satisfy the strict test). -/
theorem calculate_wells_amended (b : Board) :
    calculate_wells (get_column_heights b) =
      ((List.range (get_column_heights b).length).map
        (amended_well_term (get_column_heights b))).sum := by
  unfold calculate_wells
  congr 1
  exact List.map_congr_left fun i _ => wellTerm_eq_amended _ i

/-! ## C9 — the bot reports success whenever candidates exist -/

/-- C9: whenever the move enumerator returns a non-empty candidate list,
`make_move` returns `true` — with no proviso about the replay: the
selection loop scores every candidate on its (possibly only partially
mutated) clone and the final `apply_move` to the real game has its success
flag discarded, so the result is `true` even if the chosen replay aborts
at a sub-action. -/
theorem make_move_true_of_some_candidate (g : Game)
    (h : find_possible_moves 500 g ≠ []) :
    (make_move g).1 = true := by
  unfold make_move
  cases hm : find_possible_moves 500 g with
  | nil => exact absurd hm h
  | cons a as => simp [hm]

/-- C9 witness: on a concrete game (empty board, T piece at the spawn row)
the enumerator returns candidates, and the bot's step reports `true`. -/
theorem make_move_true_witness :
    find_possible_moves 500 tAtTopGame ≠ [] ∧
    (make_move tAtTopGame).1 = true :=
  ⟨by decide, make_move_true_of_some_candidate tAtTopGame (by decide)⟩
/-! ## C5 — lock delay: reset cap and 500 ms expiry -/

/-- Spawning never touches the board. -/
theorem spawn_preserves_board (g : Game) : (g.spawn_new_piece).board = g.board := by
  unfold Game.spawn_new_piece
  dsimp only
  split <;> split <;> rfl

/-- Locking with an active piece commits it to the board and clears lines;
nothing later in the lock sequence changes the board again. -/
theorem lock_piece_board_of_piece (g : Game) (p : Piece)
    (hcp : g.current_piece = some p) :
    (g.lock_piece).board = ((g.board.place_piece p).2.clear_lines).2 := by
  unfold Game.lock_piece
  rw [hcp]
  simp only [spawn_preserves_board]

/-- Iterating `try_reset_lock_delay` saturates the reset counter at
`MAX_LOCK_RESETS`. -/
theorem tryReset_iterate_resets (g : Game) (ha : g.lock_delay_active = true)
    (hr : g.lock_delay_resets ≤ MAX_LOCK_RESETS) :
    ∀ n, (Game.try_reset_lock_delay^[n] g).lock_delay_resets =
      min (g.lock_delay_resets + n) MAX_LOCK_RESETS := by
  intro n
  induction n generalizing g with
  | zero =>
    simp only [Function.iterate_zero_apply]
    omega
  | succ n ih =>
    by_cases hlt : g.lock_delay_resets < MAX_LOCK_RESETS
    · have hstep : g.try_reset_lock_delay =
          { g with lock_delay_timer := 0,
                   lock_delay_resets := g.lock_delay_resets + 1 } := by
        unfold Game.try_reset_lock_delay
        rw [if_pos ⟨ha, hlt⟩]
      have hactive : (g.try_reset_lock_delay).lock_delay_active = true := by
        rw [hstep]
        exact ha
      have hle : (g.try_reset_lock_delay).lock_delay_resets ≤ MAX_LOCK_RESETS := by
        rw [hstep]
        show g.lock_delay_resets + 1 ≤ MAX_LOCK_RESETS
        omega
      have h2 := ih (g.try_reset_lock_delay) hactive hle
      rw [Function.iterate_succ_apply, h2, hstep]
      show min (g.lock_delay_resets + 1 + n) MAX_LOCK_RESETS =
        min (g.lock_delay_resets + (n + 1)) MAX_LOCK_RESETS
      omega
    · have hstep : g.try_reset_lock_delay = g := by
        unfold Game.try_reset_lock_delay
        rw [if_neg (by rintro ⟨_, h2⟩; omega)]
      rw [Function.iterate_succ_apply, hstep, ih g ha hr]
      omega

/-- C5: while lock delay is active, (1) a qualifying reset under the cap
zeroes the timer and bumps the counter; (2) once the counter has reached
`MAX_LOCK_RESETS` (= 15) a qualifying action leaves the state — timer
included — completely unchanged, so the 16th and later resets are
refused; (3) over any sequence of qualifying actions the counter is the
saturating `min (initial + n) 15`, so at most 15 resets are ever
accepted; (4) a successful left move is exactly the piece shift followed
by `try_reset_lock_delay` (the mechanism by which successful
movements/rotations reset the timer); and (5) for a blocked active piece,
`update dt` locks exactly when the accumulated lock-delay time reaches
`LOCK_DELAY` (= 500 ms): below the threshold the timer accumulates to
`timer + dt` and the board and piece are untouched; at or above it the
piece is committed to the board (with lines cleared) and the lock-delay
state is cleared. -/
theorem lock_delay_contract (g : Game) (p : Piece) (dt : Nat) :
    (g.lock_delay_active = true → g.lock_delay_resets < MAX_LOCK_RESETS →
      g.try_reset_lock_delay =
        { g with lock_delay_timer := 0,
                 lock_delay_resets := g.lock_delay_resets + 1 }) ∧
    (MAX_LOCK_RESETS ≤ g.lock_delay_resets → g.try_reset_lock_delay = g) ∧
    (g.lock_delay_active = true → g.lock_delay_resets ≤ MAX_LOCK_RESETS →
      ∀ n, (Game.try_reset_lock_delay^[n] g).lock_delay_resets =
        min (g.lock_delay_resets + n) MAX_LOCK_RESETS) ∧
    (g.current_piece = some p → g.board.can_place p.with_left_move = true →
      g.move_left =
        (true, Game.try_reset_lock_delay
          { g with current_piece := some p.with_left_move })) ∧
    (g.state = GameState.Playing → g.lock_delay_active = true →
     g.current_piece = some p → g.board.can_place p.with_down_move = false →
      ((g.lock_delay_timer + dt < LOCK_DELAY →
         (g.update dt).2.lock_delay_timer = g.lock_delay_timer + dt ∧
         (g.update dt).2.current_piece = some p ∧
         (g.update dt).2.board = g.board) ∧
       (LOCK_DELAY ≤ g.lock_delay_timer + dt →
         (g.update dt).2.board = ((g.board.place_piece p).2.clear_lines).2 ∧
         (g.update dt).2.lock_delay_timer = 0 ∧
         (g.update dt).2.lock_delay_active = false))) := by
  refine ⟨?_, ?_, ?_, ?_, ?_⟩
  · intro ha hlt
    unfold Game.try_reset_lock_delay
    rw [if_pos ⟨ha, hlt⟩]
  · intro hge
    unfold Game.try_reset_lock_delay
    rw [if_neg (by rintro ⟨_, h2⟩; omega)]
  · intro ha hr
    exact tryReset_iterate_resets g ha hr
  · intro hcp hok
    unfold Game.move_left
    rw [hcp]
    simp only [hok, if_true]
  · intro hstate ha hcp hblocked
    have hne : ¬ (g.state ≠ GameState.Playing) := by simp [hstate]
    unfold Game.update
    rw [if_neg hne]
    dsimp only
    by_cases hgrav : g.time_since_last_drop + dt ≥ g.gravity_delay
    · rw [if_pos hgrav]
      simp only [hcp, hblocked, ha, Bool.false_eq_true, if_false, not_true,
        ite_false, ite_true]
      constructor
      · intro htime
        split
        · exfalso
          omega
        · exact ⟨rfl, rfl, rfl⟩
      · intro htime
        split
        · exact ⟨lock_piece_board_of_piece _ p rfl, rfl, rfl⟩
        · exfalso
          omega
    · rw [if_neg hgrav]
      simp only [ha, ite_true]
      constructor
      · intro htime
        split
        · exfalso
          omega
        · exact ⟨rfl, hcp, rfl⟩
      · intro htime
        split
        · exact ⟨lock_piece_board_of_piece _ p hcp, rfl, rfl⟩
        · exfalso
          omega

/-- C5 witness: on the concrete blocked game, the hypotheses hold, a
qualifying reset zeroes the timer and bumps the counter, 20 iterated
resets saturate the counter at 15, and a 500 ms `update` locks the piece
into the board. -/
theorem lock_delay_contract_witness :
    (lockDelayGame.lock_delay_active = true ∧
     lockDelayGame.lock_delay_resets < MAX_LOCK_RESETS ∧
     lockDelayGame.state = GameState.Playing ∧
     lockDelayGame.current_piece = some lockDelayPiece ∧
     lockDelayGame.board.can_place lockDelayPiece.with_down_move = false ∧
     LOCK_DELAY ≤ lockDelayGame.lock_delay_timer + 500) ∧
    lockDelayGame.try_reset_lock_delay =
      { lockDelayGame with
        lock_delay_timer := 0,
        lock_delay_resets := lockDelayGame.lock_delay_resets + 1 } ∧
    (Game.try_reset_lock_delay^[20] lockDelayGame).lock_delay_resets =
      min (lockDelayGame.lock_delay_resets + 20) MAX_LOCK_RESETS ∧
    ((lockDelayGame.update 500).2.board =
       ((lockDelayGame.board.place_piece lockDelayPiece).2.clear_lines).2 ∧
     (lockDelayGame.update 500).2.lock_delay_timer = 0 ∧
     (lockDelayGame.update 500).2.lock_delay_active = false) :=
  have h := lock_delay_contract lockDelayGame lockDelayPiece 500
  ⟨⟨rfl, by decide, rfl, rfl, by decide, by decide⟩,
   h.1 rfl (by decide),
   h.2.2.1 rfl (by decide) 20,
   (h.2.2.2.2 rfl rfl rfl (by decide)).2 (by decide)⟩

/-! ## C7 — 7-bag fairness of the draw stream -/

/-- Popping the back of a length-`m` prefix of a 7-element list yields the
`(7 − m)`-th element of the reversed list and the length-`(m − 1)`
prefix. -/
theorem popBack_take (l : List PieceType) (hlen : l.length = 7) (m : Nat)
    (hm1 : 1 ≤ m) (hm7 : m ≤ 7) :
    popBack (l.take m) = (l.reverse.getD (7 - m) .I, l.take (m - 1)) := by
  unfold popBack
  have hlt : m - 1 < m := by omega
  have h1 : (l.take m).getLastD .I = l.reverse.getD (7 - m) .I := by
    rw [List.getLastD_eq_getLast?, List.getLast?_eq_getElem?,
      List.getD_eq_getElem?_getD]
    have hl : (l.take m).length = m := by
      rw [List.length_take, hlen]
      omega
    rw [hl, List.getElem?_take_of_lt hlt]
    have h2 : l.reverse[7 - m]? = l[l.length - 1 - (7 - m)]? :=
      List.getElem?_reverse (by omega)
    rw [h2, hlen]
    congr 2
    omega
  have h3 : (l.take m).dropLast = l.take (m - 1) := by
    rw [List.dropLast_eq_take, List.length_take, hlen, List.take_take]
    congr 1
    omega
  rw [h1, h3]

/-- One `pushFromBag` step moves `bagStream bags e` from the bags to the
queue back and advances the invariant. -/
theorem pushFromBag_step (bags : Nat → List PieceType)
    (hlen : ∀ k, (bags k).length = 7) (e : Nat) (r : BagRandomizer)
    (hinv : StateInv bags e r) :
    StateInv bags (e + 1) r.pushFromBag ∧
    (r.pushFromBag).preview_queue = r.preview_queue ++ [bagStream bags e] := by
  obtain ⟨hbags, hcase⟩ := hinv
  have key : ∀ r1 : BagRandomizer,
      r1.bags = bags → r1.preview_queue = r.preview_queue →
      r1.bag = (bags (e / 7)).take (7 - e % 7) →
      r1.refill_count = e / 7 + 1 →
      StateInv bags (e + 1)
        { r1 with bag := (popBack r1.bag).2,
                  preview_queue := r1.preview_queue ++ [(popBack r1.bag).1] } ∧
      ({ r1 with bag := (popBack r1.bag).2,
                 preview_queue := r1.preview_queue ++ [(popBack r1.bag).1] } :
        BagRandomizer).preview_queue = r.preview_queue ++ [bagStream bags e] := by
    intro r1 hb hq hbag hrc
    have hmod : e % 7 < 7 := Nat.mod_lt _ (by omega)
    have hpop := popBack_take (bags (e / 7)) (hlen _) (7 - e % 7)
      (by omega) (by omega)
    rw [hbag, hpop]
    refine ⟨⟨hb, ?_⟩, ?_⟩
    · by_cases hsix : e % 7 = 6
      · left
        refine ⟨?_, ?_, ?_⟩
        · show List.take (7 - e % 7 - 1) (bags (e / 7)) = []
          rw [hsix]
          rfl
        · show r1.refill_count = (e + 1) / 7
          rw [hrc]
          omega
        · omega
      · right
        refine ⟨?_, ?_⟩
        · show List.take (7 - e % 7 - 1) (bags (e / 7)) =
            List.take (7 - (e + 1) % 7) (bags ((e + 1) / 7))
          have h1 : (e + 1) / 7 = e / 7 := by omega
          have h2 : (e + 1) % 7 = e % 7 + 1 := by omega
          have h3 : 7 - e % 7 - 1 = 7 - (e % 7 + 1) := by omega
          rw [h1, h2, h3]
        · show r1.refill_count = (e + 1) / 7 + 1
          rw [hrc]
          omega
    · show r1.preview_queue ++ [(bags (e / 7)).reverse.getD (7 - (7 - e % 7)) .I] =
        r.preview_queue ++ [bagStream bags e]
      rw [hq]
      have h77 : 7 - (7 - e % 7) = e % 7 := by omega
      rw [h77]
      rfl
  unfold BagRandomizer.pushFromBag
  rcases hcase with ⟨hbag, hrc, hmod⟩ | ⟨hbag, hrc⟩
  · -- bag exhausted: refill (the eagerly-refilled full bag is handled by
    -- the same prefix shape, take 7 = whole outcome)
    have hemp : r.bag.isEmpty = true := by rw [hbag]; rfl
    simp only [hemp]
    refine key r.refill_bag hbags rfl ?_ ?_
    · show r.bags r.refill_count = (bags (e / 7)).take (7 - e % 7)
      rw [hbags, hrc, hmod]
      have ht := List.take_length (bags (e / 7))
      rw [hlen] at ht
      rw [ht]
    · show r.refill_count + 1 = e / 7 + 1
      omega
  · -- bag is a non-empty prefix of the current outcome
    have hne : r.bag.isEmpty = false := by
      rw [hbag]
      have hl : ((bags (e / 7)).take (7 - e % 7)).length = 7 - e % 7 := by
        rw [List.length_take, hlen]
        omega
      rcases h : (bags (e / 7)).take (7 - e % 7) with _ | ⟨a, l⟩
      · rw [h] at hl
        simp at hl
        omega
      · rfl
    simp only [hne, Bool.false_eq_true, if_false]
    exact key r hbags rfl hbag hrc

/-- The preview-filling loop appends draws `e`, `e + 1`, … in order. -/
theorem fillPreview_inv (bags : Nat → List PieceType)
    (hlen : ∀ k, (bags k).length = 7) :
    ∀ (m e : Nat) (r : BagRandomizer), StateInv bags e r →
      StateInv bags (e + m) (r.fillPreview m) ∧
      (r.fillPreview m).preview_queue =
        r.preview_queue ++ (List.range m).map (fun i => bagStream bags (e + i)) := by
  intro m
  induction m with
  | zero =>
    intro e r hinv
    exact ⟨hinv, by simp [BagRandomizer.fillPreview]⟩
  | succ m ih =>
    intro e r hinv
    obtain ⟨h1, h2⟩ := pushFromBag_step bags hlen e r hinv
    obtain ⟨h3, h4⟩ := ih (e + 1) r.pushFromBag h1
    have hf : r.fillPreview (m + 1) = (r.pushFromBag).fillPreview m := rfl
    constructor
    · rw [hf]
      have h5 : e + 1 + m = e + (m + 1) := by omega
      rw [h5] at h3
      exact h3
    · rw [hf, h4, h2, List.append_assoc]
      congr 1
      have hr : (List.range (m + 1)).map (fun i => bagStream bags (e + i)) =
          bagStream bags (e + 0) ::
            (List.range m).map ((fun i => bagStream bags (e + i)) ∘ Nat.succ) := by
        rw [List.range_succ_eq_map, List.map_cons, List.map_map]
      rw [hr]
      have ht : (List.range m).map ((fun i => bagStream bags (e + i)) ∘ Nat.succ) =
          (List.range m).map (fun i => bagStream bags (e + 1 + i)) :=
        List.map_congr_left (fun i _ => by
          show bagStream bags (e + (i + 1)) = bagStream bags (e + 1 + i)
          congr 1
          omega)
      rw [ht]
      rfl

/-- A freshly constructed source satisfies the invariant at draw 0. -/
theorem new_QInv (bags : Nat → List PieceType)
    (hlen : ∀ k, (bags k).length = 7) :
    QInv bags 0 (BagRandomizer.new bags) := by
  have h0 : StateInv bags 0 (BagRandomizer.refill_bag ⟨[], [], bags, 0⟩) := by
    refine ⟨rfl, Or.inr ⟨?_, rfl⟩⟩
    show bags 0 = (bags (0 / 7)).take (7 - 0 % 7)
    have ht := List.take_length (bags 0)
    rw [hlen] at ht
    exact ht.symm
  obtain ⟨h1, h2⟩ := fillPreview_inv bags hlen 5 0 _ h0
  constructor
  · exact h1
  · show (BagRandomizer.new bags).preview_queue = _
    rw [show BagRandomizer.new bags =
      (BagRandomizer.refill_bag ⟨[], [], bags, 0⟩).fillPreview 5 from rfl, h2]
    rfl

/-- `next` emits draw `n` and advances the invariant. -/
theorem next_step (bags : Nat → List PieceType)
    (hlen : ∀ k, (bags k).length = 7) (n : Nat) (r : BagRandomizer)
    (h : QInv bags n r) :
    (r.next).1 = bagStream bags n ∧ QInv bags (n + 1) (r.next).2 := by
  obtain ⟨hs, hq⟩ := h
  have hnext : r.next = (bagStream bags n,
      BagRandomizer.pushFromBag { r with preview_queue :=
        [bagStream bags (n + 1), bagStream bags (n + 2),
         bagStream bags (n + 3), bagStream bags (n + 4)] }) := by
    unfold BagRandomizer.next BagRandomizer.pushFromBag
    rw [hq]
  have hs1 : StateInv bags (n + 5) { r with preview_queue :=
      [bagStream bags (n + 1), bagStream bags (n + 2),
       bagStream bags (n + 3), bagStream bags (n + 4)] } := hs
  obtain ⟨h1, h2⟩ := pushFromBag_step bags hlen (n + 5) _ hs1
  refine ⟨by rw [hnext], ?_, ?_⟩
  · rw [hnext]
    exact h1
  · rw [hnext]
    rw [h2]
    rfl

/-- The whole draw sequence is `bagStream`: draw `j` is pop `j mod 7` of
shuffle outcome `j / 7`. -/
theorem drawsN_eq (bags : Nat → List PieceType)
    (hlen : ∀ k, (bags k).length = 7) :
    ∀ (m n : Nat) (r : BagRandomizer), QInv bags n r →
      r.drawsN m = (List.range m).map (fun i => bagStream bags (n + i)) := by
  intro m
  induction m with
  | zero =>
    intro n r _
    rfl
  | succ m ih =>
    intro n r h
    obtain ⟨h1, h2⟩ := next_step bags hlen n r h
    have hd : r.drawsN (m + 1) = (r.next).1 :: ((r.next).2.drawsN m) := rfl
    rw [hd, h1, ih (n + 1) _ h2]
    have hr : (List.range (m + 1)).map (fun i => bagStream bags (n + i)) =
        bagStream bags (n + 0) ::
          (List.range m).map ((fun i => bagStream bags (n + i)) ∘ Nat.succ) := by
      rw [List.range_succ_eq_map, List.map_cons, List.map_map]
    rw [hr]
    have ht : (List.range m).map ((fun i => bagStream bags (n + i)) ∘ Nat.succ) =
        (List.range m).map (fun i => bagStream bags (n + 1 + i)) :=
      List.map_congr_left (fun i _ => by
        show bagStream bags (n + (i + 1)) = bagStream bags (n + 1 + i)
        congr 1
        omega)
    rw [ht]
    rfl

/-- Reading a list off by `getD` over its index range reproduces it. -/
theorem map_getD_range (l : List PieceType) (d : PieceType) :
    (List.range l.length).map (fun i => l.getD i d) = l := by
  induction l with
  | nil => rfl
  | cons a l ih =>
    rw [List.length_cons, List.range_succ_eq_map, List.map_cons, List.map_map]
    have h2 : List.map ((fun i => (a :: l).getD i d) ∘ Nat.succ)
        (List.range l.length) = l := ih
    rw [h2]
    rfl

/-- C7 (amended): for every shuffle-outcome stream in which each outcome is
a permutation of the 7 shapes, every BAG-ALIGNED window of 7 consecutive
draws — draws `7k` through `7k + 6` from a freshly constructed source —
contains each shape exactly once.  (Windows starting inside a bag can
repeat shapes; see the counterexample.) -/
theorem bag_window_aligned_each_once (bags : Nat → List PieceType)
    (hperm : ∀ k, List.Perm (bags k) fullBag) (k : Nat) (t : PieceType) :
    (((BagRandomizer.new bags).drawsN (7 * k + 7)).drop (7 * k)).count t = 1 := by
  have hlen : ∀ j, (bags j).length = 7 := fun j => by
    have h := (hperm j).length_eq
    simpa using h
  have hd := drawsN_eq bags hlen (7 * k + 7) 0 _ (new_QInv bags hlen)
  rw [hd, List.range_add, List.map_append,
    List.drop_left' (by rw [List.length_map, List.length_range]), List.map_map]
  have hwin : (List.range 7).map ((fun i => bagStream bags (0 + i)) ∘ (7 * k + ·)) =
      (List.range 7).map (fun i => (bags k).reverse.getD i .I) :=
    List.map_congr_left (fun i hi => by
      have hi7 : i < 7 := List.mem_range.mp hi
      show bagStream bags (0 + (7 * k + i)) = (bags k).reverse.getD i .I
      unfold bagStream
      have e1 : (0 + (7 * k + i)) / 7 = k := by omega
      have e2 : (0 + (7 * k + i)) % 7 = i := by omega
      rw [e1, e2])
  rw [hwin]
  have hlr : (bags k).reverse.length = 7 := by
    rw [List.length_reverse]
    exact hlen k
  rw [show (List.range 7) = List.range (bags k).reverse.length from by rw [hlr],
    map_getD_range]
  have hp2 : List.Perm ((bags k).reverse) fullBag :=
    ((bags k).reverse_perm).trans (hperm k)
  rw [hp2.count_eq]
  cases t <;> rfl

/-- C7 (counterexample): with the admissible shuffle outcomes `cexBagA`
then `cexBagB` (each a permutation of the 7 shapes — `cexBags` takes no
other values), the 7 consecutive draws starting at draw index 6 contain
`I` twice and `J` not at all, refuting the claim for arbitrary starting
indices. -/
theorem bag_unaligned_window_repeats :
    List.Perm cexBagA fullBag ∧ List.Perm cexBagB fullBag ∧
    cexBags 0 = cexBagA ∧ cexBags 1 = cexBagB ∧
    (((BagRandomizer.new cexBags).drawsN 13).drop 6).count PieceType.I = 2 ∧
    (((BagRandomizer.new cexBags).drawsN 13).drop 6).count PieceType.J = 0 := by
  refine ⟨by decide, by decide, rfl, rfl, by decide, by decide⟩

/-- C7 witness: the aligned window `7·1 … 7·1 + 6` of the stream whose
every outcome is the unshuffled bag contains `I` exactly once. -/
theorem bag_window_aligned_witness :
    (((BagRandomizer.new constBags).drawsN (7 * 1 + 7)).drop (7 * 1)).count
      PieceType.I = 1 :=
  bag_window_aligned_each_once constBags (fun _ => List.Perm.refl _) 1 PieceType.I

end Stackr
